import Mathlib

/-!
Shallow embedding of the PLP-Python8 analysis pipeline
(`Data_Analysis.py`, batch script, and `streamlit_app.py`, interactive
dashboard) over in-memory tables of research-paper metadata records.

Text cells of a dataframe column are modelled as `Option String`
(`none` is pandas `NaN`); a table is a `List` of records in row order.
The pandas date parser (`pd.to_datetime`, an external library) is taken
as a parameter `parse : String → Option Date` of the cleaning pipeline;
`none` models `NaT` under `errors := coerce`.  Python `str.lower` is
modelled per character over ASCII (`Char.toLower`), which agrees with
CPython on every character that can survive the later `[^a-z\s]` strip.
-/

set_option maxHeartbeats 1000000
set_option linter.unusedSectionVars false

namespace PLP

/-- One metadata row after the column projection
`df[COLUMNS_TO_KEEP]` (Data_Analysis.py lines 37-46,
streamlit_app.py lines 22-23): exactly the seven retained columns,
each cell optional (pandas `NaN` is `none`). -/
structure Record where
  title : Option String
  abstract : Option String
  publish_time : Option String
  authors : Option String
  journal : Option String
  source_x : Option String
  url : Option String
deriving DecidableEq, Repr

/-- A parsed calendar date, the result of `pd.to_datetime` on one cell. -/
structure Date where
  year : Int
  month : Nat
  day : Nat
deriving DecidableEq, Repr

/-- A row of the cleaned dataframe: `publish_time` has been converted to
a datetime value and `publication_year` derived from it
(Data_Analysis.py lines 62-68, streamlit_app.py lines 31-37). The text
columns stay optional-typed, as in the dataframe. -/
structure CleanedRecord where
  title : Option String
  abstract : Option String
  publish_time : Date
  authors : Option String
  journal : Option String
  source_x : Option String
  url : Option String
  publication_year : Int
deriving DecidableEq, Repr

/-- Sentinel fill of one row:
`df_cleaned['authors'].fillna('Unknown Author')` and
`df_cleaned['journal'].fillna('Unknown Journal')`
(Data_Analysis.py lines 52-53, streamlit_app.py lines 26-27). -/
def fillRecord (r : Record) : Record :=
  { r with
    authors := some (r.authors.getD "Unknown Author")
    journal := some (r.journal.getD "Unknown Journal") }

/-- Cleaning step 2: sentinel fill applied to the whole table. -/
def fill_sentinels (t : List Record) : List Record := t.map fillRecord

/-- Cleaning step 3: `df_cleaned.dropna(subset=['abstract'])`
(Data_Analysis.py line 56, streamlit_app.py line 28). -/
def drop_missing_abstract (t : List Record) : List Record :=
  t.filter fun r => r.abstract.isSome

/-- Cleaning steps 4-6: `pd.to_datetime(..., errors='coerce')`, then
`dropna(subset=['publish_time'])`, then
`publication_year = publish_time.dt.year`
(Data_Analysis.py lines 62-68, streamlit_app.py lines 31-37).  A `none`
cell or a parse failure becomes `NaT` and the row is dropped; surviving
rows carry the parsed date and its year component. -/
def parse_dates (parse : String → Option Date) (t : List Record) :
    List CleanedRecord :=
  t.filterMap fun r =>
    (r.publish_time.bind parse).map fun d =>
      { title := r.title, abstract := r.abstract, publish_time := d,
        authors := r.authors, journal := r.journal,
        source_x := r.source_x, url := r.url, publication_year := d.year }

/-- The full Cleaner: projection (built into `Record`), sentinel fill,
abstract drop, date parse/drop/derive, in source order. -/
def load_and_clean (parse : String → Option Date) (t : List Record) :
    List CleanedRecord :=
  parse_dates parse (drop_missing_abstract (fill_sentinels t))

end PLP

namespace PLP

/-- C1: every Record retained by the Cleaner has a non-missing abstract,
a publication_year equal to the year component of its parsed
publish_time, and authors/journal that are either the original
non-missing values or the sentinels "Unknown Author"/"Unknown Journal". -/
theorem c1_cleaner_invariants (parse : String → Option Date)
    (t : List Record) (c : CleanedRecord)
    (hc : c ∈ load_and_clean parse t) :
    c.abstract.isSome = true ∧
    c.publication_year = c.publish_time.year ∧
    ∃ r ∈ t,
      c.abstract = r.abstract ∧
      (c.authors = r.authors ∨
        (r.authors = none ∧ c.authors = some "Unknown Author")) ∧
      (c.journal = r.journal ∨
        (r.journal = none ∧ c.journal = some "Unknown Journal")) := by
  unfold load_and_clean parse_dates at hc
  rcases List.mem_filterMap.mp hc with ⟨a, ha, hfa⟩
  rcases List.mem_filter.mp ha with ⟨ham, habs⟩
  rcases List.mem_map.mp ham with ⟨r, hr, hfill⟩
  rcases Option.map_eq_some'.mp hfa with ⟨d, _hd, hcd⟩
  subst hcd
  subst hfill
  refine ⟨?_, rfl, r, hr, ?_, ?_, ?_⟩
  · simpa [fillRecord] using habs
  · simp [fillRecord]
  · cases h : r.authors with
    | none => simp [fillRecord, h]
    | some s => simp [fillRecord, h]
  · cases h : r.journal with
    | none => simp [fillRecord, h]
    | some s => simp [fillRecord, h]

/-- Witness objects for the cleaning theorems: a one-row table with a
present abstract, a missing authors cell, and a parseable date. -/
def parse0 : String → Option Date := fun s =>
  if s = "2020-05-01" then some ⟨2020, 5, 1⟩ else none

def rec0 : Record :=
  { title := some "T", abstract := some "A",
    publish_time := some "2020-05-01", authors := none,
    journal := some "Nature", source_x := none, url := none }

def clean0 : CleanedRecord :=
  { title := some "T", abstract := some "A",
    publish_time := ⟨2020, 5, 1⟩, authors := some "Unknown Author",
    journal := some "Nature", source_x := none, url := none,
    publication_year := 2020 }

/-- Witness for C1 at a concrete one-row table. -/
theorem c1_cleaner_invariants_witness :
    clean0.abstract.isSome = true ∧
    clean0.publication_year = clean0.publish_time.year ∧
    ∃ r ∈ [rec0],
      clean0.abstract = r.abstract ∧
      (clean0.authors = r.authors ∨
        (r.authors = none ∧ clean0.authors = some "Unknown Author")) ∧
      (clean0.journal = r.journal ∨
        (r.journal = none ∧ clean0.journal = some "Unknown Journal")) :=
  c1_cleaner_invariants parse0 [rec0] clean0 (by decide)

/-- C8: cleaning never adds rows — the sentinel fill preserves the row
count, the abstract drop keeps a sublist of the rows, each later step is
non-increasing in row count, and the final table is no longer than the
input. -/
theorem c8_cleaning_never_adds_rows (parse : String → Option Date)
    (t : List Record) :
    (fill_sentinels t).length = t.length ∧
    (drop_missing_abstract (fill_sentinels t)).Sublist (fill_sentinels t) ∧
    (drop_missing_abstract (fill_sentinels t)).length ≤
      (fill_sentinels t).length ∧
    (load_and_clean parse t).length ≤
      (drop_missing_abstract (fill_sentinels t)).length ∧
    (load_and_clean parse t).length ≤ t.length := by
  refine ⟨List.length_map _ _, List.filter_sublist _, ?_, ?_, ?_⟩
  · exact List.length_filter_le _ _
  · exact List.length_filterMap_le _ _
  · calc (load_and_clean parse t).length
        ≤ (drop_missing_abstract (fill_sentinels t)).length :=
          List.length_filterMap_le _ _
      _ ≤ (fill_sentinels t).length := List.length_filter_le _ _
      _ = t.length := List.length_map _ _

/-! ### Counting with first-occurrence key order

`collections.Counter` and the pandas object-dtype `value_counts` hash
table both record keys in order of first occurrence during the counting
pass; `bump`/`countAll` reproduce that: a new key is appended at the
end, an existing key's count is incremented in place. -/

variable {α : Type} [DecidableEq α]

/-- Add one occurrence of `k` to an association list of counts, keeping
key order; a fresh key goes to the end (first-occurrence order). -/
def bump (k : α) : List (α × Nat) → List (α × Nat)
  | [] => [(k, 1)]
  | p :: rest => if p.1 = k then (p.1, p.2 + 1) :: rest else p :: bump k rest

/-- Count the occurrences of every element of `l`, keys in order of
first occurrence (the `Counter(...)` / `value_counts` counting pass). -/
def countAll (l : List α) : List (α × Nat) :=
  l.foldl (fun acc x => bump x acc) []

theorem map_fst_bump (k : α) (c : List (α × Nat)) :
    (bump k c).map Prod.fst =
      if k ∈ c.map Prod.fst then c.map Prod.fst
      else c.map Prod.fst ++ [k] := by
  induction c with
  | nil => simp [bump]
  | cons p rest ih =>
    by_cases h : p.1 = k
    · simp [bump, h]
    · have hne : ¬ k = p.1 := fun hk => h hk.symm
      by_cases hmem : k ∈ rest.map Prod.fst
      · simp [bump, h, ih, hmem, hne]
      · simp [bump, h, ih, hmem, hne]

theorem mem_map_fst_bump (j k : α) (c : List (α × Nat)) :
    j ∈ (bump k c).map Prod.fst ↔ j = k ∨ j ∈ c.map Prod.fst := by
  rw [map_fst_bump]
  by_cases hmem : k ∈ c.map Prod.fst
  · simp only [if_pos hmem]
    constructor
    · exact Or.inr
    · rintro (rfl | h)
      · exact hmem
      · exact h
  · simp [if_neg hmem, or_comm]

theorem mem_map_fst_countAll_aux (l : List α) (j : α) :
    ∀ acc : List (α × Nat),
      (j ∈ (l.foldl (fun acc x => bump x acc) acc).map Prod.fst ↔
        j ∈ acc.map Prod.fst ∨ j ∈ l) := by
  induction l with
  | nil => intro acc; simp
  | cons x xs ih =>
    intro acc
    simp only [List.foldl_cons, ih (bump x acc), mem_map_fst_bump,
      List.mem_cons]
    tauto

/-- The keys produced by the counting pass are exactly the distinct
elements of the counted list. -/
theorem mem_map_fst_countAll (l : List α) (j : α) :
    j ∈ (countAll l).map Prod.fst ↔ j ∈ l := by
  simpa using mem_map_fst_countAll_aux l j []

/-- Sum of the counts in an association list of counts. -/
def sumCounts (c : List (α × Nat)) : Nat := (c.map Prod.snd).sum

theorem sumCounts_bump (k : α) (c : List (α × Nat)) :
    sumCounts (bump k c) = sumCounts c + 1 := by
  induction c with
  | nil => simp [bump, sumCounts]
  | cons p rest ih =>
    by_cases h : p.1 = k
    · simp [bump, h, sumCounts]
      omega
    · simp only [bump, if_neg h]
      simp only [sumCounts, List.map_cons, List.sum_cons] at *
      omega

theorem sumCounts_countAll_aux (l : List α) :
    ∀ acc : List (α × Nat),
      sumCounts (l.foldl (fun acc x => bump x acc) acc) =
        sumCounts acc + l.length := by
  induction l with
  | nil => intro acc; simp
  | cons x xs ih =>
    intro acc
    simp only [List.foldl_cons, ih (bump x acc), sumCounts_bump,
      List.length_cons]
    omega

/-- The counts of the counting pass sum to the length of the list. -/
theorem sumCounts_countAll (l : List α) :
    sumCounts (countAll l) = l.length := by
  simpa [sumCounts] using sumCounts_countAll_aux l []

theorem nodup_map_fst_bump (k : α) (c : List (α × Nat))
    (h : (c.map Prod.fst).Nodup) : ((bump k c).map Prod.fst).Nodup := by
  rw [map_fst_bump]
  by_cases hmem : k ∈ c.map Prod.fst
  · simpa [hmem] using h
  · simp only [if_neg hmem]
    exact List.Nodup.append h (List.nodup_singleton k)
      (fun a ha hak => hmem ((List.mem_singleton.mp hak) ▸ ha))

theorem nodup_map_fst_countAll_aux (l : List α) :
    ∀ acc : List (α × Nat), (acc.map Prod.fst).Nodup →
      ((l.foldl (fun acc x => bump x acc) acc).map Prod.fst).Nodup := by
  induction l with
  | nil => intro acc h; simpa using h
  | cons x xs ih =>
    intro acc h
    exact ih (bump x acc) (nodup_map_fst_bump x acc h)

/-- The counting pass yields pairwise-distinct keys. -/
theorem nodup_map_fst_countAll (l : List α) :
    ((countAll l).map Prod.fst).Nodup :=
  nodup_map_fst_countAll_aux l [] (by simp)

/-! ### Stable sort by count descending

`Counter.most_common(n)` is documented as equivalent to
`sorted(items, key=count, reverse=True)[:n]` with a stable sort, and
modern pandas `value_counts` sorts with `kind="stable"`: ties keep the
order of the counting pass.  `insertDesc`/`sortDesc` is a stable
insertion sort by count descending. -/

/-- Insert a pair into a count-descending list, after every pair of
greater or equal count (stability: earlier elements of the original
list are inserted last and land before later equals). -/
def insertDesc (p : α × Nat) : List (α × Nat) → List (α × Nat)
  | [] => [p]
  | q :: rest => if q.2 ≤ p.2 then p :: q :: rest else q :: insertDesc p rest

/-- Stable sort by count descending. -/
def sortDesc (l : List (α × Nat)) : List (α × Nat) :=
  l.foldr insertDesc []

theorem insertDesc_perm (p : α × Nat) (l : List (α × Nat)) :
    List.Perm (insertDesc p l) (p :: l) := by
  induction l with
  | nil => simp [insertDesc]
  | cons q rest ih =>
    by_cases h : q.2 ≤ p.2
    · simp [insertDesc, h]
    · simp only [insertDesc, if_neg h]
      exact List.Perm.trans (List.Perm.cons q ih) (List.Perm.swap p q rest)

theorem sortDesc_perm (l : List (α × Nat)) : List.Perm (sortDesc l) l := by
  induction l with
  | nil => simp [sortDesc]
  | cons p rest ih =>
    exact List.Perm.trans (insertDesc_perm p (sortDesc rest))
      (List.Perm.cons p ih)

theorem pairwise_insertDesc (p : α × Nat) (l : List (α × Nat))
    (h : l.Pairwise fun a b => b.2 ≤ a.2) :
    (insertDesc p l).Pairwise fun a b => b.2 ≤ a.2 := by
  induction l with
  | nil => simp [insertDesc]
  | cons q rest ih =>
    rcases List.pairwise_cons.mp h with ⟨hq, hrest⟩
    by_cases hle : q.2 ≤ p.2
    · simp only [insertDesc, if_pos hle]
      refine List.pairwise_cons.mpr ⟨?_, h⟩
      intro b hb
      rcases List.mem_cons.mp hb with rfl | hb
      · exact hle
      · exact le_trans (hq b hb) hle
    · simp only [insertDesc, if_neg hle]
      refine List.pairwise_cons.mpr ⟨?_, ih hrest⟩
      intro b hb
      rcases List.mem_cons.mp
          ((insertDesc_perm p rest).mem_iff.mp hb) with rfl | hb
      · exact le_of_lt (lt_of_not_le hle)
      · exact hq b hb

/-- The stable sort is sorted by count descending. -/
theorem pairwise_sortDesc (l : List (α × Nat)) :
    (sortDesc l).Pairwise fun a b => b.2 ≤ a.2 := by
  induction l with
  | nil => simp [sortDesc]
  | cons p rest ih => exact pairwise_insertDesc p (sortDesc rest) ih

theorem filter_insertDesc (p : α × Nat) (l : List (α × Nat)) (c : Nat) :
    (insertDesc p l).filter (fun q => q.2 = c) =
      if p.2 = c then p :: l.filter (fun q => q.2 = c)
      else l.filter (fun q => q.2 = c) := by
  induction l with
  | nil =>
    by_cases h : p.2 = c <;> simp [insertDesc, List.filter, h]
  | cons q rest ih =>
    by_cases hle : q.2 ≤ p.2
    · simp only [insertDesc, if_pos hle]
      by_cases h : p.2 = c
      · simp [List.filter_cons, h]
      · simp [List.filter_cons, h]
    · have hqc : p.2 < q.2 := lt_of_not_le hle
      simp only [insertDesc, if_neg hle]
      by_cases h : p.2 = c
      · have hqne : ¬ q.2 = c := by omega
        simp [List.filter_cons, hqne, ih, h]
      · by_cases hq : q.2 = c
        · simp [List.filter_cons, hq, ih, h]
        · simp [List.filter_cons, hq, ih, h]

/-- Stability of the sort: among the entries of any fixed count, the
sorted list keeps exactly the order of the input list (hence ties keep
the first-encountered order of the counting pass). -/
theorem filter_sortDesc (l : List (α × Nat)) (c : Nat) :
    (sortDesc l).filter (fun q => q.2 = c) =
      l.filter (fun q => q.2 = c) := by
  induction l with
  | nil => simp [sortDesc]
  | cons p rest ih =>
    show (insertDesc p (sortDesc rest)).filter (fun q => q.2 = c) = _
    rw [filter_insertDesc, ih]
    by_cases h : p.2 = c <;> simp [List.filter_cons, h]

/-- `Counter.most_common(n)` / `value_counts().head(n)`: count with
first-occurrence key order, stable-sort by count descending, truncate
to the first `n` entries. -/
def most_common (n : Nat) (l : List α) : List (α × Nat) :=
  (sortDesc (countAll l)).take n

theorem length_most_common (n : Nat) (l : List α) :
    (most_common n l).length ≤ n := by
  simp only [most_common, List.length_take]
  exact min_le_left _ _

theorem mem_most_common (n : Nat) (l : List α) (p : α × Nat)
    (hp : p ∈ most_common n l) : p.1 ∈ l := by
  have h1 : p ∈ sortDesc (countAll l) := List.take_subset n _ hp
  have h2 : p ∈ countAll l := (sortDesc_perm _).mem_iff.mp h1
  exact (mem_map_fst_countAll l p.1).mp (List.mem_map_of_mem Prod.fst h2)

theorem pairwise_most_common (n : Nat) (l : List α) :
    (most_common n l).Pairwise fun a b => b.2 ≤ a.2 :=
  (pairwise_sortDesc (countAll l)).sublist (List.take_sublist n _)

/-! ### Sort by year ascending (`sort_index()`) -/

/-- Insert a (year, count) pair into a year-ascending list. -/
def insertAsc (p : Int × Nat) : List (Int × Nat) → List (Int × Nat)
  | [] => [p]
  | q :: rest => if p.1 ≤ q.1 then p :: q :: rest else q :: insertAsc p rest

/-- Sort (year, count) pairs by year ascending, modelling
`value_counts().sort_index()`. -/
def sortAsc (l : List (Int × Nat)) : List (Int × Nat) :=
  l.foldr insertAsc []

theorem insertAsc_perm (p : Int × Nat) (l : List (Int × Nat)) :
    List.Perm (insertAsc p l) (p :: l) := by
  induction l with
  | nil => simp [insertAsc]
  | cons q rest ih =>
    by_cases h : p.1 ≤ q.1
    · simp [insertAsc, h]
    · simp only [insertAsc, if_neg h]
      exact List.Perm.trans (List.Perm.cons q ih) (List.Perm.swap p q rest)

theorem sortAsc_perm (l : List (Int × Nat)) : List.Perm (sortAsc l) l := by
  induction l with
  | nil => simp [sortAsc]
  | cons p rest ih =>
    exact List.Perm.trans (insertAsc_perm p (sortAsc rest))
      (List.Perm.cons p ih)

theorem pairwise_insertAsc (p : Int × Nat) (l : List (Int × Nat))
    (h : l.Pairwise fun a b => a.1 ≤ b.1) :
    (insertAsc p l).Pairwise fun a b => a.1 ≤ b.1 := by
  induction l with
  | nil => simp [insertAsc]
  | cons q rest ih =>
    rcases List.pairwise_cons.mp h with ⟨hq, hrest⟩
    by_cases hle : p.1 ≤ q.1
    · simp only [insertAsc, if_pos hle]
      refine List.pairwise_cons.mpr ⟨?_, h⟩
      intro b hb
      rcases List.mem_cons.mp hb with rfl | hb
      · exact hle
      · exact le_trans hle (hq b hb)
    · simp only [insertAsc, if_neg hle]
      refine List.pairwise_cons.mpr ⟨?_, ih hrest⟩
      intro b hb
      rcases List.mem_cons.mp
          ((insertAsc_perm p rest).mem_iff.mp hb) with rfl | hb
      · exact le_of_lt (lt_of_not_le hle)
      · exact hq b hb

theorem pairwise_sortAsc (l : List (Int × Nat)) :
    (sortAsc l).Pairwise fun a b => a.1 ≤ b.1 := by
  induction l with
  | nil => simp [sortAsc]
  | cons p rest ih => exact pairwise_insertAsc p (sortAsc rest) ih

theorem pairwise_and {β : Type} {R S : β → β → Prop} :
    ∀ {l : List β}, l.Pairwise R → l.Pairwise S →
      l.Pairwise fun a b => R a b ∧ S a b := by
  intro l hR hS
  induction l with
  | nil => simp
  | cons x xs ih =>
    rcases List.pairwise_cons.mp hR with ⟨hx, hxs⟩
    rcases List.pairwise_cons.mp hS with ⟨sx, sxs⟩
    exact List.pairwise_cons.mpr
      ⟨fun b hb => ⟨hx b hb, sx b hb⟩, ih hxs sxs⟩

/-- Year-sorting a counts list with pairwise-distinct keys orders the
keys strictly ascending. -/
theorem pairwise_lt_sortAsc (l : List (Int × Nat))
    (h : (l.map Prod.fst).Nodup) :
    (sortAsc l).Pairwise fun a b => a.1 < b.1 := by
  have hsort : ((sortAsc l).map Prod.fst).Nodup :=
    (((sortAsc_perm l).map Prod.fst).nodup_iff).mpr h
  have hne : (sortAsc l).Pairwise fun a b => a.1 ≠ b.1 :=
    List.pairwise_map.mp hsort
  exact (pairwise_and (pairwise_sortAsc l) hne).imp
    fun hab => lt_of_le_of_ne hab.1 hab.2

/-! ### The three Aggregator functions -/

/-- The journal cells retained by the sentinel exclusion
`df[df['journal'] != 'Unknown Journal']['journal']`
(Data_Analysis.py line 84, streamlit_app.py line 78). -/
def retained_journals (t : List CleanedRecord) : List (Option String) :=
  (t.filter fun r => decide (r.journal ≠ some "Unknown Journal")).map
    fun r => r.journal

/-- `top_journals` (Data_Analysis.py line 84, streamlit_app.py line 78):
`value_counts().head(n)` over the journal column after excluding the
sentinel; the source fixes `n := 10`. -/
def top_journals (t : List CleanedRecord) (n : Nat) :
    List (Option String × Nat) :=
  most_common n (retained_journals t)

/-- `publications_over_time` (Data_Analysis.py line 103,
streamlit_app.py line 96):
`df['publication_year'].value_counts().sort_index()`. -/
def publications_over_time (t : List CleanedRecord) : List (Int × Nat) :=
  sortAsc (countAll (t.map fun r => r.publication_year))

/-! ### Tokenizer and word frequency -/

/-- Characters the regex class `[a-z]` matches. -/
def isLowerAlpha (c : Char) : Bool := decide ('a' ≤ c) && decide (c ≤ 'z')

/-- ASCII whitespace: what the regex class `\s` keeps and `str.split()`
splits on. -/
def isPySpace (c : Char) : Bool :=
  c == ' ' || c == '\t' || c == '\n' || c == '\r' || c == '\x0b' ||
    c == '\x0c'

/-- `text.split()` with no separator: split on whitespace runs,
dropping empty pieces; `cur` carries the reversed characters of the
word currently being built. -/
def splitWords : List Char → List Char → List String
  | [], cur => if cur.isEmpty then [] else [String.mk cur.reverse]
  | c :: cs, cur =>
    if isPySpace c then
      if cur.isEmpty then splitWords cs []
      else String.mk cur.reverse :: splitWords cs []
    else splitWords cs (c :: cur)

/-- `tokenize_and_clean` (Data_Analysis.py lines 139-146,
streamlit_app.py lines 121-124): lowercase the text, delete every
character outside `[a-z\s]`, split on whitespace, keep words of length
greater than 2. -/
def tokenize_and_clean (s : String) : List String :=
  (splitWords ((s.data.map Char.toLower).filter fun c =>
    isLowerAlpha c || isPySpace c) []).filter fun w => decide (2 < w.length)

/-- Batch `full_text` (Data_Analysis.py line 136):
`df['title'] + ' ' + df['abstract']`.  Pandas string concatenation with
a missing (`NaN`) operand yields `NaN`. -/
def full_text (r : CleanedRecord) : Option String :=
  match r.title, r.abstract with
  | some ti, some ab => some (ti ++ " " ++ ab)
  | _, _ => none

/-- Interactive `full_text` (streamlit_app.py line 126):
`df['title'] + ' ' + df['abstract'].fillna('')`; only a missing title
makes the result `NaN`. -/
def full_text_app (r : CleanedRecord) : Option String :=
  r.title.map fun ti => ti ++ " " ++ r.abstract.getD ""

/-- Tokens contributed by one row; the `isinstance(text, str)` check
(Data_Analysis.py line 152, streamlit_app.py line 130) makes a `NaN`
full text contribute nothing. -/
def rowWords (ft : CleanedRecord → Option String) (r : CleanedRecord) :
    List String :=
  match ft r with
  | some s => tokenize_and_clean s
  | none => []

/-- `all_words`: every token of every row, in row order
(Data_Analysis.py lines 149-153, streamlit_app.py lines 127-131). -/
def all_words (ft : CleanedRecord → Option String)
    (t : List CleanedRecord) : List String :=
  t.foldr (fun r acc => rowWords ft r ++ acc) []

/-- `filtered_words`: stopword removal
(Data_Analysis.py line 156, streamlit_app.py line 133). -/
def filtered_words (ft : CleanedRecord → Option String)
    (t : List CleanedRecord) (stop : List String) : List String :=
  (all_words ft t).filter fun w => decide (w ∉ stop)

/-- `TopTokens`: `Counter(filtered_words).most_common(n)`
(Data_Analysis.py lines 159-160, streamlit_app.py lines 134-135). -/
def top_words (ft : CleanedRecord → Option String)
    (t : List CleanedRecord) (n : Nat) (stop : List String) :
    List (String × Nat) :=
  most_common n (filtered_words ft t stop)

/-- The manual stopword list of Data_Analysis.py lines 126-133. -/
def manual_stop_words : List String :=
  ["the", "and", "to", "of", "in", "is", "a", "with", "for", "was", "as",
   "are", "on", "this", "we", "from", "or", "by", "at", "that", "were",
   "an", "be", "can", "has", "our", "have", "results", "data", "study",
   "new", "also", "which", "may", "these", "more", "one", "all",
   "research", "used", "paper", "found", "two", "using", "analysis",
   "showed", "been", "could", "other", "potential", "time", "infection",
   "fig", "figure"]

/-- The stopword list of streamlit_app.py lines 112-119: the batch list
plus "covid", "sars", "mers". -/
def app_stop_words : List String :=
  manual_stop_words ++ ["covid", "sars", "mers"]

theorem mem_all_words (ft : CleanedRecord → Option String)
    (t : List CleanedRecord) (w : String) :
    w ∈ all_words ft t ↔ ∃ r ∈ t, w ∈ rowWords ft r := by
  induction t with
  | nil => simp [all_words]
  | cons r rest ih =>
    show w ∈ rowWords ft r ++ all_words ft rest ↔ _
    simp [List.mem_append, ih]

theorem length_of_mem_tokenize (s : String) (w : String)
    (hw : w ∈ tokenize_and_clean s) : 3 ≤ w.length := by
  have := (List.mem_filter.mp hw).2
  simp only [decide_eq_true_eq] at this
  omega

end PLP

namespace PLP

/-- C3: `top_journals` returns at most n pairs, never the sentinel
"Unknown Journal" as a key, ordered by count descending; ties keep the
first-encountered order of the counting pass (stability: for every
count value, the sorted entries of that count are exactly those of the
counting pass, in its order). -/
theorem c3_top_journals_sound (t : List CleanedRecord) (n : Nat) :
    (top_journals t n).length ≤ n ∧
    (∀ p ∈ top_journals t n, p.1 ≠ some "Unknown Journal") ∧
    ((top_journals t n).Pairwise fun a b => b.2 ≤ a.2) ∧
    (∀ c : Nat,
      (sortDesc (countAll (retained_journals t))).filter
          (fun q => q.2 = c) =
        (countAll (retained_journals t)).filter fun q => q.2 = c) := by
  refine ⟨length_most_common _ _, ?_, pairwise_most_common _ _,
    fun c => filter_sortDesc _ c⟩
  intro p hp
  have h1 : p.1 ∈ retained_journals t := mem_most_common n _ p hp
  rcases List.mem_map.mp h1 with ⟨r, hr, hrp⟩
  have := List.mem_filter.mp hr
  rw [← hrp]
  simpa using this.2

/-- C4: the keys of `publications_over_time` are exactly the distinct
publication_year values present in the table, ordered strictly
ascending, and the counts sum to the row count. -/
theorem c4_publications_over_time_sound (t : List CleanedRecord) :
    (∀ y : Int, y ∈ (publications_over_time t).map Prod.fst ↔
      y ∈ t.map fun r => r.publication_year) ∧
    ((publications_over_time t).map Prod.snd).sum = t.length ∧
    ((publications_over_time t).Pairwise fun a b => a.1 < b.1) := by
  unfold publications_over_time
  refine ⟨?_, ?_, ?_⟩
  · intro y
    rw [((sortAsc_perm _).map Prod.fst).mem_iff]
    exact mem_map_fst_countAll _ y
  · rw [((sortAsc_perm _).map Prod.snd).sum_eq]
    have := sumCounts_countAll (t.map fun r => r.publication_year)
    simpa [sumCounts, List.length_map] using this
  · exact pairwise_lt_sortAsc _ (nodup_map_fst_countAll _)

/-- The spec's tokenizer scenario as a cleaned row whose full text is
"The virus spreads. THE VIRUS IS NEW.". -/
def scenario_rec : CleanedRecord :=
  { title := some "The virus spreads.",
    abstract := some "THE VIRUS IS NEW.",
    publish_time := ⟨2020, 1, 1⟩, authors := some "Unknown Author",
    journal := some "Unknown Journal", source_x := none, url := none,
    publication_year := 2020 }

/-- C2: for either variant's full-text column, every table, every n and
every stopword set, `top_words` returns at most n entries, only tokens
of length at least 3 that are not stopwords, ordered by count
descending with ties kept in the first-encountered order of the
counting pass (stability of the sort); and on the single text
"The virus spreads. THE VIRUS IS NEW." with n = 2 and stopwords
{the, is, new} it returns exactly [(virus, 2), (spreads, 1)]. -/
theorem c2_top_tokens_sound (ft : CleanedRecord → Option String)
    (t : List CleanedRecord) (n : Nat) (stop : List String) :
    (top_words ft t n stop).length ≤ n ∧
    (∀ p ∈ top_words ft t n stop, 3 ≤ p.1.length ∧ p.1 ∉ stop) ∧
    ((top_words ft t n stop).Pairwise fun a b => b.2 ≤ a.2) ∧
    (∀ c : Nat,
      (sortDesc (countAll (filtered_words ft t stop))).filter
          (fun q => q.2 = c) =
        (countAll (filtered_words ft t stop)).filter fun q => q.2 = c) ∧
    top_words full_text [scenario_rec] 2 ["the", "is", "new"] =
      [("virus", 2), ("spreads", 1)] := by
  refine ⟨length_most_common _ _, ?_, pairwise_most_common _ _,
    fun c => filter_sortDesc _ c, by decide⟩
  intro p hp
  have h1 : p.1 ∈ filtered_words ft t stop := mem_most_common n _ p hp
  rcases List.mem_filter.mp h1 with ⟨hall, hstop⟩
  simp only [decide_eq_true_eq] at hstop
  refine ⟨?_, hstop⟩
  rcases (mem_all_words ft t p.1).mp hall with ⟨r, _hr, hrow⟩
  unfold rowWords at hrow
  cases hft : ft r with
  | none => rw [hft] at hrow; cases hrow
  | some s => rw [hft] at hrow; exact length_of_mem_tokenize s p.1 hrow

/-- C10: a cleaned row with a missing title and a present abstract gets
a `NaN` full text in both variants, is skipped by the string-type
check, and contributes zero tokens to the word frequencies. -/
theorem c10_missing_title_skipped (r : CleanedRecord)
    (t : List CleanedRecord) (n : Nat) (stop : List String)
    (htitle : r.title = none) (habs : r.abstract.isSome = true) :
    full_text r = none ∧ full_text_app r = none ∧
    rowWords full_text r = [] ∧ rowWords full_text_app r = [] ∧
    top_words full_text (r :: t) n stop = top_words full_text t n stop ∧
    top_words full_text_app (r :: t) n stop =
      top_words full_text_app t n stop := by
  rcases Option.isSome_iff_exists.mp habs with ⟨a, ha⟩
  have h1 : full_text r = none := by
    unfold full_text
    rw [htitle, ha]
  have h2 : full_text_app r = none := by
    unfold full_text_app
    rw [htitle]
    rfl
  have h3 : rowWords full_text r = [] := by
    unfold rowWords
    rw [h1]
  have h4 : rowWords full_text_app r = [] := by
    unfold rowWords
    rw [h2]
  have h5 : ∀ ft : CleanedRecord → Option String, rowWords ft r = [] →
      top_words ft (r :: t) n stop = top_words ft t n stop := by
    intro ft hrow
    unfold top_words filtered_words
    have : all_words ft (r :: t) = all_words ft t := by
      show rowWords ft r ++ all_words ft t = all_words ft t
      rw [hrow]
      rfl
    rw [this]
  exact ⟨h1, h2, h3, h4, h5 full_text h3, h5 full_text_app h4⟩

/-! ### Loader, error handling, presenter panels, cache

The CSV reader itself is pandas; its contract is modelled at the level
the two scripts use it: a source is `none` (path does not resolve,
`FileNotFoundError`) or a list of raw data lines, each already split
into fields.  In the pandas C parser a line with more fields than the
schema is the malformed-line case that `on_bad_lines` governs; a short
line is padded with `NaN`.  The model projects the source directly to
the seven retained columns. -/

/-- The spec's load-error taxonomy (without `SchemaMismatch`, which no
claim mentions). -/
inductive LoadError where
  | sourceNotFound
  | sourceUnreadable
deriving DecidableEq, Repr

/-- A raw CSV data line, already split into fields. -/
abbrev RawLine := List String

/-- Cell `i` of a raw line: absent or empty is `NaN`. -/
def fieldOpt (l : RawLine) (i : Nat) : Option String :=
  match l[i]? with
  | some "" => none
  | some s => some s
  | none => none

/-- Parse one data line against the seven-column schema; a line with
too many fields is malformed. -/
def parse_line (l : RawLine) : Option Record :=
  if 7 < l.length then none
  else some { title := fieldOpt l 0, abstract := fieldOpt l 1,
              publish_time := fieldOpt l 2, authors := fieldOpt l 3,
              journal := fieldOpt l 4, source_x := fieldOpt l 5,
              url := fieldOpt l 6 }

/-- `pd.read_csv(..., nrows=nrows, on_bad_lines='skip')`
(streamlit_app.py line 16): malformed lines are skipped, and the first
`nrows` parseable rows from the start of the source are kept. -/
def read_rows_skip (lines : List RawLine) (nrows : Nat) : List Record :=
  (lines.filterMap parse_line).take nrows

/-- `pd.read_csv(..., nrows=nrows)` with the default
`on_bad_lines='error'` (Data_Analysis.py line 11): reading stops once
`nrows` rows are parsed, and a malformed line within the read prefix
aborts the load with a parse error. -/
def read_rows_strict : List RawLine → Nat → Except LoadError (List Record)
  | _, 0 => Except.ok []
  | [], Nat.succ _ => Except.ok []
  | l :: ls, Nat.succ n =>
    match parse_line l with
    | none => Except.error LoadError.sourceUnreadable
    | some r =>
      match read_rows_strict ls n with
      | Except.ok rs => Except.ok (r :: rs)
      | Except.error e => Except.error e

/-- The batch Loader (Data_Analysis.py lines 9-11). -/
def read_csv_batch (source : Option (List RawLine)) (nrows : Nat) :
    Except LoadError (List Record) :=
  match source with
  | none => Except.error LoadError.sourceNotFound
  | some lines => read_rows_strict lines nrows

/-- The interactive Loader (streamlit_app.py line 16). -/
def read_csv_app (source : Option (List RawLine)) (nrows : Nat) :
    Except LoadError (List Record) :=
  match source with
  | none => Except.error LoadError.sourceNotFound
  | some lines => Except.ok (read_rows_skip lines nrows)

/-- Outcome of the batch script's top level.  On a load error the
`except` handlers (Data_Analysis.py lines 29-32) print a message, but
the cleaning section is outside the `try` and runs unconditionally:
line 46 references `df`, which was never assigned, so the script dies
with an uncaught `NameError` rather than stopping gracefully. -/
inductive BatchStatus where
  | finished (cleaned : List CleanedRecord)
  | uncaughtNameError
deriving DecidableEq

/-- Run the batch script (Data_Analysis.py lines 9-70). -/
def batch_run (parse : String → Option Date)
    (source : Option (List RawLine)) (nrows : Nat) : BatchStatus :=
  match read_csv_batch source nrows with
  | Except.ok df => BatchStatus.finished (load_and_clean parse df)
  | Except.error _ => BatchStatus.uncaughtNameError

/-- Whether the batch script printed its error report
(Data_Analysis.py lines 29-32). -/
def batch_error_reported (source : Option (List RawLine)) (nrows : Nat) :
    Bool :=
  match read_csv_batch source nrows with
  | Except.ok _ => false
  | Except.error _ => true

/-- `load_and_clean_data` (streamlit_app.py lines 13-39): on any load
error, `st.error` shows an inline message and an empty table is
returned; the Boolean records whether the message was shown. -/
def load_and_clean_data (parse : String → Option Date)
    (source : Option (List RawLine)) (nrows : Nat) :
    List CleanedRecord × Bool :=
  match read_csv_app source nrows with
  | Except.error _ => ([], true)
  | Except.ok df => (load_and_clean parse df, false)

/-- The interactive page outcome: `st.stop()` halts rendering when the
cleaned table is empty (streamlit_app.py lines 50-53), which covers
every load failure. -/
inductive AppRun where
  | halted (errorShown : Bool)
  | page (cleaned : List CleanedRecord)
deriving DecidableEq

/-- Run the interactive app up to the stop check. -/
def app_run (parse : String → Option Date)
    (source : Option (List RawLine)) (nrows : Nat) : AppRun :=
  let res := load_and_clean_data parse source nrows
  if res.1.isEmpty then AppRun.halted res.2 else AppRun.page res.1

/-- A chart panel's render outcome: a chart, the inline
"No data available for the selected year range." message, or nothing
at all. -/
inductive Panel (α : Type) where
  | chart (data : α)
  | noData
  | blank
deriving DecidableEq

/-- The year-range filter (streamlit_app.py lines 67-70). -/
def filter_by_year (t : List CleanedRecord) (lo hi : Int) :
    List CleanedRecord :=
  t.filter fun r =>
    decide (lo ≤ r.publication_year) && decide (r.publication_year ≤ hi)

/-- Panel 1 (streamlit_app.py lines 76-89): an `else` branch writes the
no-data message. -/
def render_top_journals (t : List CleanedRecord) :
    Panel (List (Option String × Nat)) :=
  if t.isEmpty then Panel.noData else Panel.chart (top_journals t 10)

/-- Panel 2 (streamlit_app.py lines 94-105): no `else` branch, so an
empty table renders nothing at all. -/
def render_over_time (t : List CleanedRecord) :
    Panel (List (Int × Nat)) :=
  if t.isEmpty then Panel.blank
  else Panel.chart (publications_over_time t)

/-- Panel 3 (streamlit_app.py lines 110-147): no `else` branch. -/
def render_top_words (t : List CleanedRecord) :
    Panel (List (String × Nat)) :=
  if t.isEmpty then Panel.blank
  else Panel.chart (top_words full_text_app t 10 app_stop_words)

/-- The `@st.cache_data` store, keyed by the memoized function's
arguments (source path, row cap). -/
abbrev Cache := List ((String × Nat) × List CleanedRecord)

/-- Cache lookup. -/
def cache_get : Cache → String × Nat → Option (List CleanedRecord)
  | [], _ => none
  | kv :: rest, k => if kv.1 = k then some kv.2 else cache_get rest k

/-- One dashboard interaction through `@st.cache_data`
(streamlit_app.py line 12): return the memoized table for
(path, row cap), or compute and memoize it. -/
def cached_load (compute : String → Nat → List CleanedRecord)
    (c : Cache) (path : String) (nrows : Nat) :
    List CleanedRecord × Cache :=
  match cache_get c (path, nrows) with
  | some v => (v, c)
  | none =>
    (compute path nrows, ((path, nrows), compute path nrows) :: c)

/-- The three summaries computed from one cleaned table. -/
def pipeline_outputs (t : List CleanedRecord) :
    List (Option String × Nat) × List (Int × Nat) ×
      List (String × Nat) :=
  (top_journals t 10, publications_over_time t,
    top_words full_text_app t 10 app_stop_words)

/-- A cleaned row with a missing title and a present abstract. -/
def no_title_rec : CleanedRecord :=
  { title := none, abstract := some "Some abstract words here.",
    publish_time := ⟨2021, 1, 1⟩, authors := some "A",
    journal := some "J", source_x := none, url := none,
    publication_year := 2021 }

/-- Witness for C10 at a concrete missing-title row. -/
theorem c10_missing_title_skipped_witness :
    full_text no_title_rec = none ∧ full_text_app no_title_rec = none ∧
    rowWords full_text no_title_rec = [] ∧
    rowWords full_text_app no_title_rec = [] ∧
    top_words full_text (no_title_rec :: [scenario_rec]) 10
        manual_stop_words =
      top_words full_text [scenario_rec] 10 manual_stop_words ∧
    top_words full_text_app (no_title_rec :: [scenario_rec]) 10
        manual_stop_words =
      top_words full_text_app [scenario_rec] 10 manual_stop_words :=
  c10_missing_title_skipped no_title_rec [scenario_rec] 10
    manual_stop_words rfl rfl

/-- A data line with eight fields: one more than the schema, the
malformed-line case. -/
def bad_line : RawLine := ["a", "b", "c", "d", "e", "f", "g", "h"]

theorem read_rows_strict_length (lines : List RawLine) :
    ∀ (nrows : Nat) (tr : List Record),
      read_rows_strict lines nrows = Except.ok tr →
        tr.length ≤ nrows := by
  induction lines with
  | nil =>
    intro nrows tr h
    cases nrows with
    | zero =>
      simp only [read_rows_strict] at h
      cases h
      simp
    | succ n =>
      simp only [read_rows_strict] at h
      cases h
      simp
  | cons l ls ih =>
    intro nrows tr h
    cases nrows with
    | zero =>
      simp only [read_rows_strict] at h
      cases h
      simp
    | succ n =>
      simp only [read_rows_strict] at h
      cases hp : parse_line l with
      | none => rw [hp] at h; cases h
      | some r =>
        rw [hp] at h
        cases hr : read_rows_strict ls n with
        | error e => rw [hr] at h; cases h
        | ok rs =>
          rw [hr] at h
          cases h
          have := ih n rs hr
          simp only [List.length_cons]
          omega

/-- C5 counterexample: on a source whose only line is malformed, the
batch Loader aborts the load with a parse error instead of skipping
the line, while the interactive Loader skips it. -/
theorem c5_counterexample :
    read_csv_batch (some [bad_line]) 1 =
      Except.error LoadError.sourceUnreadable ∧
    read_csv_app (some [bad_line]) 1 = Except.ok [] := ⟨rfl, rfl⟩

/-- C5 (amended): the interactive Loader skips malformed lines (they
are dropped and do not abort the load) and yields at most `nrows` rows
from the start of the source; the batch Loader yields at most `nrows`
rows when it succeeds, but aborts on a malformed line within the read
prefix instead of skipping it. -/
theorem c5_loader_amended (lines : List RawLine) (nrows : Nat)
    (bad : RawLine) :
    (read_rows_skip lines nrows).length ≤ nrows ∧
    (parse_line bad = none →
      read_rows_skip (bad :: lines) nrows = read_rows_skip lines nrows) ∧
    (∀ tr : List Record,
      read_rows_strict lines nrows = Except.ok tr →
        tr.length ≤ nrows) := by
  refine ⟨?_, ?_, read_rows_strict_length lines nrows⟩
  · simp only [read_rows_skip, List.length_take]
    exact min_le_left _ _
  · intro hbad
    simp [read_rows_skip, List.filterMap_cons, hbad]

/-- C6: a load failure is reported in both variants, but only the
interactive variant halts cleanly (`st.error` then `st.stop`); the
batch script prints its report and then runs the cleaning section
anyway, dying with an uncaught `NameError` on the unassigned `df`
instead of stopping gracefully. -/
theorem c6_load_failure_behaviour (parse : String → Option Date)
    (nrows : Nat) :
    batch_run parse none nrows = BatchStatus.uncaughtNameError ∧
    batch_error_reported none nrows = true ∧
    batch_run parse (some [bad_line]) 1 =
      BatchStatus.uncaughtNameError ∧
    batch_error_reported (some [bad_line]) 1 = true ∧
    app_run parse none nrows = AppRun.halted true := by
  exact ⟨rfl, rfl, rfl, rfl, rfl⟩

/-- C7 counterexample: with the year slider set to a range that
excludes all data, the publications-over-time panel renders nothing at
all, not the no-data message the claim requires of every panel. -/
theorem c7_counterexample :
    render_over_time (filter_by_year [scenario_rec] 1990 1991) ≠
      Panel.noData := by decide

/-- C7 (amended): when the year-filtered table is empty, all three
Aggregator functions return an empty result rather than failing, and
the Presenter renders the no-data message for the journals panel but
renders nothing (no chart and no message) for the time-series and
word-frequency panels; none of the three throws. -/
theorem c7_empty_filter_amended (t : List CleanedRecord) (lo hi : Int)
    (n : Nat) (stop : List String)
    (h : filter_by_year t lo hi = []) :
    top_journals (filter_by_year t lo hi) n = [] ∧
    publications_over_time (filter_by_year t lo hi) = [] ∧
    top_words full_text_app (filter_by_year t lo hi) n stop = [] ∧
    render_top_journals (filter_by_year t lo hi) = Panel.noData ∧
    render_over_time (filter_by_year t lo hi) = Panel.blank ∧
    render_top_words (filter_by_year t lo hi) = Panel.blank := by
  rw [h]
  refine ⟨?_, rfl, ?_, rfl, rfl, rfl⟩
  · simp [top_journals, retained_journals, most_common, countAll,
      sortDesc]
  · simp [top_words, filtered_words, all_words, most_common, countAll,
      sortDesc]

/-- Witness for C7 at a concrete table and excluding year range. -/
theorem c7_empty_filter_amended_witness :
    top_journals (filter_by_year [scenario_rec] 1990 1991) 10 = [] ∧
    publications_over_time (filter_by_year [scenario_rec] 1990 1991) =
      [] ∧
    top_words full_text_app (filter_by_year [scenario_rec] 1990 1991)
        10 app_stop_words = [] ∧
    render_top_journals (filter_by_year [scenario_rec] 1990 1991) =
      Panel.noData ∧
    render_over_time (filter_by_year [scenario_rec] 1990 1991) =
      Panel.blank ∧
    render_top_words (filter_by_year [scenario_rec] 1990 1991) =
      Panel.blank :=
  c7_empty_filter_amended [scenario_rec] 1990 1991 10 app_stop_words
    (by decide)

/-- C9: re-running the pipeline with the same source path and row cap
returns the identical cleaned table (via the memoization cache) and
identical aggregator outputs: the pipeline is deterministic, and the
cache is the only state, which does not affect results. -/
theorem c9_pipeline_deterministic
    (compute : String → Nat → List CleanedRecord) (path : String)
    (nrows : Nat) :
    (cached_load compute
        (cached_load compute [] path nrows).2 path nrows).1 =
      (cached_load compute [] path nrows).1 ∧
    pipeline_outputs
        (cached_load compute
          (cached_load compute [] path nrows).2 path nrows).1 =
      pipeline_outputs (cached_load compute [] path nrows).1 := by
  have h1 : cached_load compute [] path nrows =
      (compute path nrows,
        [((path, nrows), compute path nrows)]) := rfl
  have h2 : cache_get [((path, nrows), compute path nrows)]
      (path, nrows) = some (compute path nrows) := by
    simp [cache_get]
  have key : (cached_load compute
      (cached_load compute [] path nrows).2 path nrows).1 =
      (cached_load compute [] path nrows).1 := by
    rw [h1]
    show (cached_load compute [((path, nrows), compute path nrows)]
      path nrows).1 = compute path nrows
    unfold cached_load
    rw [h2]
  exact ⟨key, congrArg pipeline_outputs key⟩

end PLP
